import Mathlib

/-!
Verification development for the Image_Noise media-editor repository.

The per-pixel arithmetic of the sources (numpy float32 / PIL) is embedded
over the rationals; a uint8 pixel array is a `List ℕ` whose entries are
intended to lie in `[0, 255]`.  The random draw `np.random.normal(0, σ, shape)`
is embedded as an abstract sampler `sample : ℚ → List ℚ` applied to the
standard deviation σ that the source passes, so every statement quantifies
over the concrete noise values while keeping the σ argument visible.
-/

/-- np.clip(x, 0, 255) on a single value (Video_Editor.py line 112,
Image_Noise.py line 377). -/
def clip255 (x : ℚ) : ℚ := max 0 (min x 255)

/-- astype(np.uint8) as applied by the sources: it is only ever applied to a
value already clipped into [0, 255], where the float-to-integer truncation
agrees with the floor. -/
def toUint8 (x : ℚ) : ℕ := (⌊x⌋).toNat

/-- The clip-then-cast step `np.clip(frame, 0, 255).astype(np.uint8)` on one
pixel. -/
def finalizePixel (x : ℚ) : ℕ := toUint8 (clip255 x)

/-- The settings dictionary of VideoEditor (Video_Editor.py lines 230-234):
keys noise, brightness, contrast. -/
structure VSettings where
  noise : ℚ
  brightness : ℚ
  contrast : ℚ
deriving DecidableEq

/-- VideoProcessor.apply_effects (Video_Editor.py lines 94-114): convert the
frame to float, scale by the brightness factor when the brightness setting is
nonzero, scale by the contrast factor when the contrast setting is nonzero,
add the sampled noise when the noise setting is positive, then clip to
[0, 255] and cast back to uint8. -/
def VideoProcessor.apply_effects (s : VSettings) (sample : ℚ → List ℚ)
    (frame : List ℕ) : List ℕ :=
  let f1 : List ℚ := frame.map (fun (p : ℕ) => (p : ℚ))
  let f2 := if s.brightness ≠ 0 then f1.map (fun x => x * (1 + s.brightness / 100)) else f1
  let f3 := if s.contrast ≠ 0 then f2.map (fun x => x * (1 + s.contrast / 100)) else f2
  let f4 := if 0 < s.noise then List.zipWith (fun x n => x + n) f3 (sample s.noise) else f3
  f4.map finalizePixel

/-- The settings dictionary of ImageEditor (Image_Noise.py lines 54-61):
keys noise, transparency, contrast, sharpness, brightness, saturation. -/
structure ISettings where
  noise : ℚ
  transparency : ℚ
  contrast : ℚ
  sharpness : ℚ
  brightness : ℚ
  saturation : ℚ
deriving DecidableEq

/-- Writing one key of the ImageEditor settings dictionary
(`self.current_settings[param] = value`). -/
def ISettings.set (s : ISettings) (param : String) (value : ℚ) : ISettings :=
  if param = "noise" then { s with noise := value }
  else if param = "transparency" then { s with transparency := value }
  else if param = "contrast" then { s with contrast := value }
  else if param = "sharpness" then { s with sharpness := value }
  else if param = "brightness" then { s with brightness := value }
  else if param = "saturation" then { s with saturation := value }
  else s

/-- Writing one key of the VideoEditor settings dictionary
(VideoEditor.update_settings, Video_Editor.py lines 406-408). -/
def VSettings.set (s : VSettings) (param : String) (value : ℚ) : VSettings :=
  if param = "noise" then { s with noise := value }
  else if param = "brightness" then { s with brightness := value }
  else if param = "contrast" then { s with contrast := value }
  else s

/-- ImageEditor._apply_noise (Image_Noise.py lines 371-381): read the pixel
array, draw noise with standard deviation `abs(noise setting)`, add it, clip
to [0, 255] and cast back to uint8. -/
def ImageEditor.apply_noise (v : ℚ) (sample : ℚ → List ℚ) (img : List ℕ) : List ℕ :=
  List.zipWith (fun (p : ℕ) (n : ℚ) => finalizePixel ((p : ℚ) + n)) img (sample |v|)

/-- The four PIL ImageEnhance enhancers used by ImageEditor.apply_effects.
They live in the external imaging library, so they are abstract parameters of
the embedding; each takes the enhancement factor and the image. -/
structure Enhancers where
  brightness : ℚ → List ℕ → List ℕ
  contrast : ℚ → List ℕ → List ℕ
  color : ℚ → List ℕ → List ℕ
  sharpness : ℚ → List ℕ → List ℕ

/-- The effect pipeline inside ImageEditor.apply_effects (Image_Noise.py
lines 344-365): starting from the (fresh copy of the) original image, apply
brightness, contrast, saturation (Color), sharpness — each with factor
`1 + setting / 100` and only when its setting is nonzero — and finally the
noise effect when the noise setting is nonzero. -/
def ImageEditor.effectsPipeline (enh : Enhancers) (sample : ℚ → List ℚ)
    (s : ISettings) (img : List ℕ) : List ℕ :=
  let i1 := if s.brightness ≠ 0 then enh.brightness (1 + s.brightness / 100) img else img
  let i2 := if s.contrast ≠ 0 then enh.contrast (1 + s.contrast / 100) i1 else i1
  let i3 := if s.saturation ≠ 0 then enh.color (1 + s.saturation / 100) i2 else i2
  let i4 := if s.sharpness ≠ 0 then enh.sharpness (1 + s.sharpness / 100) i3 else i3
  if s.noise ≠ 0 then ImageEditor.apply_noise s.noise sample i4 else i4

/-- The state of an ImageEditor window that the claims are about:
original_image, image (the working image) and current_settings. -/
structure EditorState where
  original_image : Option (List ℕ)
  image : Option (List ℕ)
  current_settings : ISettings

/-- ImageEditor.apply_effects (Image_Noise.py lines 337-365): when an
original image is loaded, replace the working image by the pipeline applied
to a fresh copy of the original; the original image itself is not written. -/
def ImageEditor.apply_effects (enh : Enhancers) (sample : ℚ → List ℚ)
    (st : EditorState) : EditorState :=
  match st.original_image with
  | none => st
  | some o =>
      { st with image := some (ImageEditor.effectsPipeline enh sample st.current_settings o) }

/-- ImageEditor.update_image (Image_Noise.py lines 324-335): return early when
no original image is loaded, otherwise store the new slider value and rerun
apply_effects. -/
def ImageEditor.update_image (enh : Enhancers) (sample : ℚ → List ℚ)
    (param : String) (value : ℚ) (st : EditorState) : EditorState :=
  match st.original_image with
  | none => st
  | some _ =>
      ImageEditor.apply_effects enh sample
        { st with current_settings := st.current_settings.set param value }

/-- The slider parameters of the ImageEditor control panel
(Image_Noise.py lines 212-228, the slider_groups table). -/
def imageSliderParams : List String :=
  ["brightness", "contrast", "saturation", "sharpness", "noise"]

/-- The slider parameters of the VideoEditor control panel
(Video_Editor.py lines 315-319, the slider_params table). -/
def videoSliderParams : List String :=
  ["noise", "brightness", "contrast"]

/-- The keys present in the ImageEditor settings dictionary
(Image_Noise.py lines 54-61). -/
def imageSettingsKeys : List String :=
  ["noise", "transparency", "contrast", "sharpness", "brightness", "saturation"]

/-- ImageEditor.reset_effects (Image_Noise.py lines 464-476): set every
slider parameter (and only those — transparency has no slider) to 0, and when
an original image is loaded, reset the working image to a copy of it. -/
def ImageEditor.reset_effects (st : EditorState) : EditorState :=
  let s0 := imageSliderParams.foldl (fun s p => s.set p 0) st.current_settings
  match st.original_image with
  | none => { st with current_settings := s0 }
  | some o => { st with current_settings := s0, image := some o }

/-- The callbacks VideoProcessor.run issues to the UI thread. -/
inductive CbEvent where
  | progress (value : ℤ)
  | finished (path : String)
  | error (msg : String)
deriving DecidableEq

/-- One iteration of `cap.read()` inside the processing loop: either a frame
is delivered, or some operation of that iteration raises an exception with
the given message. -/
inductive FrameStep where
  | ok (frame : List ℕ)
  | exn (msg : String)
deriving DecidableEq

/-- Python `int(...)` on a rational value: truncation toward zero. -/
def pyInt (q : ℚ) : ℤ := if 0 ≤ q then ⌊q⌋ else -⌊-q⌋

/-- The progress value reported after a frame
(`int((frame_count / total_frames) * 100)`, Video_Editor.py line 75). -/
def progressOf (frameCount : ℕ) (totalFrames : ℤ) : ℤ :=
  pyInt ((frameCount : ℚ) / (totalFrames : ℚ) * 100)

/-- Whether the stop event (set once by VideoProcessor.stop and never
cleared) is observed as set at observation instant t.  `stopTime = some u`
means stop() takes effect just before instant u; `none` means stop is never
called during the run. -/
def stopSet (stopTime : Option ℕ) (t : ℕ) : Bool :=
  match stopTime with
  | none => false
  | some u => decide (u ≤ t)

/-- The outcome of the while loop of VideoProcessor.run: callbacks issued,
frames written to the output video, the number of frames read, and the
message of the exception that aborted the loop, if any. -/
structure LoopOut where
  events : List CbEvent
  written : List (List ℕ)
  framesRead : ℕ
  aborted : Option String

/-- The while loop of VideoProcessor.run (Video_Editor.py lines 58-76),
started at observation instant k after k frames were already read: check the
stop event, read the next step, process and write the frame, and report
progress; an exception aborts to the handler, which reports it. -/
def VideoProcessor.processLoop (stopTime : Option ℕ) (s : VSettings)
    (sample : ℚ → List ℚ) (total : ℤ) : ℕ → List FrameStep → LoopOut
  | k, steps =>
    if stopSet stopTime k then ⟨[], [], k, none⟩
    else
      match steps with
      | [] => ⟨[], [], k, none⟩
      | FrameStep.exn m :: _ => ⟨[CbEvent.error m], [], k, some m⟩
      | FrameStep.ok f :: rest =>
          let pf := VideoProcessor.apply_effects s sample f
          let r := VideoProcessor.processLoop stopTime s sample total (k + 1) rest
          ⟨CbEvent.progress (progressOf (k + 1) total) :: r.events,
           pf :: r.written, r.framesRead, r.aborted⟩

/-- The outcome of VideoProcessor.run: callbacks issued in order, frames
written, frames read, and whether the temporary output file was removed. -/
structure RunOut where
  events : List CbEvent
  written : List (List ℕ)
  framesRead : ℕ
  tempRemoved : Bool

/-- VideoProcessor.run (Video_Editor.py lines 37-92).  `opened` is whether
`cap.isOpened()` succeeds; a failed open raises, and the handler reports the
message.  After the loop, a set stop event leads to removal of the temporary
file, otherwise the finished callback delivers its path.  An exception that
aborted the loop was already reported by the handler. -/
def VideoProcessor.run (opened : Bool) (stopTime : Option ℕ) (s : VSettings)
    (sample : ℚ → List ℚ) (total : ℤ) (tempFile : String)
    (steps : List FrameStep) : RunOut :=
  if opened = false then ⟨[CbEvent.error "Could not open video file"], [], 0, false⟩
  else
    let r := VideoProcessor.processLoop stopTime s sample total 0 steps
    match r.aborted with
    | some _ => ⟨r.events, r.written, r.framesRead, false⟩
    | none =>
        if stopSet stopTime r.framesRead then ⟨r.events, r.written, r.framesRead, true⟩
        else ⟨r.events ++ [CbEvent.finished tempFile], r.written, r.framesRead, false⟩

/-- The UI actions VideoEditor.process_callback performs. -/
inductive UIAction where
  | setProgressBar (x : ℚ)
  | showSuccess (msg : String)
  | loadVideo (path : String)
  | showError (msg : String)
deriving DecidableEq

/-- VideoEditor.process_callback (Video_Editor.py lines 392-404). -/
def VideoEditor.process_callback : CbEvent → List UIAction
  | CbEvent.progress p => [UIAction.setProgressBar ((p : ℚ) / 100)]
  | CbEvent.finished path =>
      [UIAction.setProgressBar 0, UIAction.showSuccess "Video processing completed!",
       UIAction.loadVideo path]
  | CbEvent.error m =>
      [UIAction.showError ("Error processing video: " ++ m), UIAction.setProgressBar 0]

/-- The progress values among a list of callbacks, in order. -/
def progressValues (evs : List CbEvent) : List ℤ :=
  evs.filterMap (fun e =>
    match e with
    | CbEvent.progress p => some p
    | _ => none)

/-- A per-pixel map that is linear in the sense of the specification:
a degree-one (affine) function of the input value. -/
def PixelAffine (f : ℚ → ℚ) : Prop := ∃ a b : ℚ, ∀ x, f x = a * x + b

theorem zipWith_replicate_right_eq_map {α β γ : Type} (f : α → β → γ) (b : β) :
    ∀ l : List α, List.zipWith f l (List.replicate l.length b) = l.map (fun a => f a b) := by
  intro l
  induction l with
  | nil => rfl
  | cons a t ih => simp [List.replicate_succ, ih]

theorem forall_mem_zipWith {α β γ : Type} {f : α → β → γ} {P : γ → Prop}
    (h : ∀ a b, P (f a b)) :
    ∀ (l1 : List α) (l2 : List β), ∀ x ∈ List.zipWith f l1 l2, P x := by
  intro l1
  induction l1 with
  | nil => intro l2 x hx; simp at hx
  | cons a t ih =>
      intro l2 x hx
      cases l2 with
      | nil => simp at hx
      | cons b t2 =>
          simp only [List.zipWith_cons_cons, List.mem_cons] at hx
          rcases hx with hx | hx
          · exact hx ▸ h a b
          · exact ih t2 x hx

theorem clip255_nonneg (x : ℚ) : 0 ≤ clip255 x := le_max_left 0 _

theorem clip255_le_255 (x : ℚ) : clip255 x ≤ 255 :=
  max_le (by norm_num) (min_le_right x 255)

theorem finalizePixel_le_255 (x : ℚ) : finalizePixel x ≤ 255 := by
  have h1 : (⌊clip255 x⌋ : ℤ) ≤ 255 := by
    have := Int.floor_le_floor (clip255_le_255 x)
    simpa using this
  exact Int.toNat_le.mpr (by exact_mod_cast h1)

theorem video_effects_zipWith (s : VSettings) (sample : ℚ → List ℚ) (frame : List ℕ) :
    VideoProcessor.apply_effects s sample frame =
      List.zipWith
        (fun (p : ℕ) (n : ℚ) =>
          finalizePixel ((p : ℚ) * (1 + s.brightness / 100) * (1 + s.contrast / 100) + n))
        frame
        (if 0 < s.noise then sample s.noise else List.replicate frame.length 0) := by
  have hB :
      (if s.brightness ≠ 0 then
          (frame.map (fun (p : ℕ) => (p : ℚ))).map (fun x => x * (1 + s.brightness / 100))
        else frame.map (fun (p : ℕ) => (p : ℚ)))
        = frame.map (fun (p : ℕ) => (p : ℚ) * (1 + s.brightness / 100)) := by
    by_cases hb : s.brightness = 0
    · rw [if_neg (by simp [hb])]
      simp [hb]
    · rw [if_pos hb, List.map_map]
      rfl
  have hC :
      (if s.contrast ≠ 0 then
          (frame.map (fun (p : ℕ) => (p : ℚ) * (1 + s.brightness / 100))).map
            (fun x => x * (1 + s.contrast / 100))
        else frame.map (fun (p : ℕ) => (p : ℚ) * (1 + s.brightness / 100)))
        = frame.map (fun (p : ℕ) => (p : ℚ) * (1 + s.brightness / 100) * (1 + s.contrast / 100)) := by
    by_cases hc : s.contrast = 0
    · rw [if_neg (by simp [hc])]
      refine List.map_congr_left ?_
      intro a _
      rw [hc]
      norm_num
    · rw [if_pos hc, List.map_map]
      rfl
  simp only [VideoProcessor.apply_effects, hB, hC]
  by_cases hn : 0 < s.noise
  · simp only [if_pos hn, List.map_zipWith, List.zipWith_map_left]
  · simp only [if_neg hn, zipWith_replicate_right_eq_map, List.map_map]
    refine List.map_congr_left ?_
    intro a _
    simp [finalizePixel, Function.comp]

/-- C1: VideoProcessor.apply_effects is exactly the per-frame transform of the
specification: each uint8 pixel is converted to a number, scaled by
`1 + brightness / 100` (the skip at a zero setting coincides with scaling by
1), then by `1 + contrast / 100`, then the noise values drawn with standard
deviation equal to the noise setting are added exactly when that setting is
positive, and the result is clipped to [0, 255] and cast back to uint8.  The
Gaussian draw itself is abstracted by the sampler, applied at σ = the noise
setting. -/
theorem video_apply_effects_is_scale_noise_clip (s : VSettings) (sample : ℚ → List ℚ)
    (frame : List ℕ) :
    VideoProcessor.apply_effects s sample frame =
      List.zipWith
        (fun (p : ℕ) (n : ℚ) =>
          finalizePixel ((p : ℚ) * (1 + s.brightness / 100) * (1 + s.contrast / 100) + n))
        frame
        (if 0 < s.noise then sample s.noise else List.replicate frame.length 0) :=
  video_effects_zipWith s sample frame

theorem finalizePixel_natCast (p : ℕ) (hp : p ≤ 255) : finalizePixel (p : ℚ) = p := by
  unfold finalizePixel toUint8 clip255
  have h0 : (0 : ℚ) ≤ (p : ℚ) := by positivity
  have h255 : (p : ℚ) ≤ 255 := by exact_mod_cast hp
  rw [min_eq_left h255, max_eq_right h0, Int.floor_natCast, Int.toNat_natCast]

/-- C2: every pixel of a frame produced by VideoProcessor.apply_effects, and
of an image produced by ImageEditor._apply_noise, is at most 255 (it is a
natural number, hence at least 0), and the clipped value fed to the uint8
cast always lies in [0, 255], so the cast never wraps or truncates an
out-of-range value. -/
theorem processed_pixels_in_range (s : VSettings) (sample : ℚ → List ℚ)
    (frame img : List ℕ) (v q : ℚ) (x : ℕ)
    (hx : x ∈ VideoProcessor.apply_effects s sample frame ∨
      x ∈ ImageEditor.apply_noise v sample img) :
    x ≤ 255 ∧ 0 ≤ clip255 q ∧ clip255 q ≤ 255 := by
  refine ⟨?_, clip255_nonneg q, clip255_le_255 q⟩
  rcases hx with hx | hx
  · simp only [VideoProcessor.apply_effects] at hx
    rcases List.mem_map.mp hx with ⟨y, _, rfl⟩
    exact finalizePixel_le_255 y
  · simp only [ImageEditor.apply_noise] at hx
    exact forall_mem_zipWith (P := fun y => y ≤ 255)
      (fun (a : ℕ) (b : ℚ) => finalizePixel_le_255 ((a : ℚ) + b)) img (sample |v|) x hx

theorem processed_pixels_in_range_witness :
    ((255 ∈ VideoProcessor.apply_effects ⟨2, 100, 0⟩ (fun d => [d, -d]) [10, 200] ∨
        255 ∈ ImageEditor.apply_noise 3 (fun d => [d, -d]) [10, 200]) ∧
      (255 ≤ 255 ∧ 0 ≤ clip255 7 ∧ clip255 7 ≤ 255)) := by
  have hmem : (255 : ℕ) ∈ VideoProcessor.apply_effects ⟨2, 100, 0⟩ (fun d => [d, -d]) [10, 200] := by
    norm_num [VideoProcessor.apply_effects, finalizePixel, toUint8, clip255]
    exact Or.inr rfl
  exact ⟨Or.inl hmem,
    processed_pixels_in_range ⟨2, 100, 0⟩ (fun d => [d, -d]) [10, 200] [10, 200] 3 7 255
      (Or.inl hmem)⟩

/-- C9: with every setting equal to 0 the pipelines are the identity: the
image pipeline skips every stage and leaves the working image equal to a copy
of the original, and the video per-frame transform returns the input frame
pixel for pixel, because float conversion, the clip to [0, 255] and the cast
back to uint8 compose to the identity on uint8 data. -/
theorem zero_settings_identity (enh : Enhancers) (sample : ℚ → List ℚ)
    (st : EditorState) (o frame : List ℕ) (ho : st.original_image = some o)
    (hz : st.current_settings = ⟨0, 0, 0, 0, 0, 0⟩) (hf : ∀ p ∈ frame, p ≤ 255) :
    (ImageEditor.apply_effects enh sample st).image = some o ∧
    VideoProcessor.apply_effects ⟨0, 0, 0⟩ sample frame = frame := by
  constructor
  · simp [ImageEditor.apply_effects, ho, ImageEditor.effectsPipeline, hz]
  · have h2 : VideoProcessor.apply_effects ⟨0, 0, 0⟩ sample frame
        = frame.map (fun (p : ℕ) => finalizePixel (p : ℚ)) := by
      simp only [VideoProcessor.apply_effects]
      norm_num
    rw [h2]
    have h3 : frame.map (fun (p : ℕ) => finalizePixel (p : ℚ))
        = frame.map (fun p => p) :=
      List.map_congr_left (fun a ha => finalizePixel_natCast a (hf a ha))
    rw [h3, List.map_id']

theorem zero_settings_identity_witness :
    ((⟨some [3, 255], none, ⟨0, 0, 0, 0, 0, 0⟩⟩ : EditorState).original_image = some [3, 255] ∧
      (⟨some [3, 255], none, ⟨0, 0, 0, 0, 0, 0⟩⟩ : EditorState).current_settings
        = ⟨0, 0, 0, 0, 0, 0⟩ ∧
      (∀ p ∈ [3, 255], p ≤ 255)) ∧
    ((ImageEditor.apply_effects ⟨fun _ l => l, fun _ l => l, fun _ l => l, fun _ l => l⟩
        (fun _ => []) ⟨some [3, 255], none, ⟨0, 0, 0, 0, 0, 0⟩⟩).image = some [3, 255] ∧
      VideoProcessor.apply_effects ⟨0, 0, 0⟩ (fun _ => []) [3, 255] = [3, 255]) :=
  ⟨⟨rfl, rfl, by decide⟩,
    zero_settings_identity ⟨fun _ l => l, fun _ l => l, fun _ l => l, fun _ l => l⟩
      (fun _ => []) ⟨some [3, 255], none, ⟨0, 0, 0, 0, 0, 0⟩⟩ [3, 255] [3, 255]
      rfl rfl (by decide)⟩

/-- C10: the two editors treat the sign of the noise setting differently.
VideoProcessor.apply_effects injects no noise whenever the noise setting is
at most 0 — its output does not depend on the sampler at all — whereas
ImageEditor._apply_noise always draws noise with standard deviation equal to
the absolute value of its noise setting, so a negative setting injects the
same noise a positive one of the same magnitude would. -/
theorem noise_sign_handling (s : VSettings) (hle : s.noise ≤ 0)
    (sample sample2 : ℚ → List ℚ) (frame img : List ℕ) (v : ℚ) :
    VideoProcessor.apply_effects s sample frame
      = VideoProcessor.apply_effects s sample2 frame ∧
    ImageEditor.apply_noise v sample img
      = List.zipWith (fun (p : ℕ) (n : ℚ) => finalizePixel ((p : ℚ) + n)) img (sample |v|) ∧
    ImageEditor.apply_noise v sample img = ImageEditor.apply_noise (-v) sample img := by
  refine ⟨?_, rfl, ?_⟩
  · have hn : ¬ 0 < s.noise := not_lt.mpr hle
    simp [VideoProcessor.apply_effects, hn]
  · simp [ImageEditor.apply_noise, abs_neg]

theorem noise_sign_handling_witness :
    ((-5 : ℚ) ≤ 0 ∧
      (VideoProcessor.apply_effects ⟨-5, 1, 2⟩ (fun d => [d]) [9]
          = VideoProcessor.apply_effects ⟨-5, 1, 2⟩ (fun _ => [99]) [9] ∧
        ImageEditor.apply_noise 4 (fun d => [d]) [9]
          = List.zipWith (fun (p : ℕ) (n : ℚ) => finalizePixel ((p : ℚ) + n)) [9] ((fun d => [d]) |(4 : ℚ)|) ∧
        ImageEditor.apply_noise 4 (fun d => [d]) [9]
          = ImageEditor.apply_noise (-4) (fun d => [d]) [9])) :=
  ⟨by norm_num,
    noise_sign_handling ⟨-5, 1, 2⟩ (by norm_num) (fun d => [d]) (fun _ => [99]) [9] [9] 4⟩

/-- Counterexample to C7: neither editor exposes a slider for the
transparency parameter — it is absent from both slider tables, so the claim
that all six listed parameters have a slider is false at the parameter
"transparency". -/
theorem transparency_slider_missing :
    ¬ ("transparency" ∈ imageSliderParams ∨ "transparency" ∈ videoSliderParams) := by
  decide

/-- One ImageEnhance enhancement stage as the specification describes it:
applied with factor `1 + setting / 100` exactly when the setting is
nonzero. -/
def enhanceStage (apply : ℚ → List ℕ → List ℕ) (v : ℚ) (img : List ℕ) : List ℕ :=
  if v ≠ 0 then apply (1 + v / 100) img else img

/-- The noise stage as the specification describes it: _apply_noise is
invoked exactly when the noise setting is nonzero. -/
def noiseStage (sample : ℚ → List ℚ) (v : ℚ) (img : List ℕ) : List ℕ :=
  if v ≠ 0 then ImageEditor.apply_noise v sample img else img

/-- C7 (amended): the image editor exposes sliders for brightness, contrast,
saturation, sharpness and noise, the video editor for noise, brightness and
contrast, and moving a slider stores the slider value under that parameter in
the corresponding settings dictionary; transparency, however, is only a key
of the image editor's settings dictionary — neither editor exposes a slider
for it. -/
theorem slider_params_cover_five (st : EditorState) (o : List ℕ) (enh : Enhancers)
    (sample : ℚ → List ℚ) (p : String) (v : ℚ) (s : VSettings)
    (ho : st.original_image = some o) :
    ("brightness" ∈ imageSliderParams ∧ "contrast" ∈ imageSliderParams ∧
      "saturation" ∈ imageSliderParams ∧ "sharpness" ∈ imageSliderParams ∧
      "noise" ∈ imageSliderParams) ∧
    ("noise" ∈ videoSliderParams ∧ "brightness" ∈ videoSliderParams ∧
      "contrast" ∈ videoSliderParams) ∧
    ("transparency" ∈ imageSettingsKeys ∧ "transparency" ∉ imageSliderParams ∧
      "transparency" ∉ videoSliderParams) ∧
    (ImageEditor.update_image enh sample p v st).current_settings
      = st.current_settings.set p v ∧
    VSettings.set s p v = s.set p v := by
  refine ⟨by decide, by decide, by decide, ?_, rfl⟩
  simp [ImageEditor.update_image, ho, ImageEditor.apply_effects]

theorem slider_params_cover_five_witness :
    ((⟨some [1], none, ⟨0, 0, 0, 0, 0, 0⟩⟩ : EditorState).original_image = some [1]) ∧
    (ImageEditor.update_image ⟨fun _ l => l, fun _ l => l, fun _ l => l, fun _ l => l⟩
        (fun _ => []) "brightness" 40 ⟨some [1], none, ⟨0, 0, 0, 0, 0, 0⟩⟩).current_settings
      = (⟨0, 0, 0, 0, 0, 0⟩ : ISettings).set "brightness" 40 :=
  ⟨rfl,
    ((slider_params_cover_five ⟨some [1], none, ⟨0, 0, 0, 0, 0, 0⟩⟩ [1]
      ⟨fun _ l => l, fun _ l => l, fun _ l => l, fun _ l => l⟩ (fun _ => [])
      "brightness" 40 ⟨0, 0, 0⟩ rfl).2.2.2.1)⟩

/-- C8: ImageEditor.apply_effects never writes original_image (and neither do
update_image and reset_effects), always recomputes the working image from a
fresh copy of the original, and its pipeline is the sequential composition of
the brightness, contrast, saturation and sharpness enhancement stages
followed by the noise stage, where each enhancement uses factor
`1 + setting / 100` and is skipped exactly when its setting is 0. -/
theorem image_pipeline_nondestructive (enh : Enhancers) (sample : ℚ → List ℚ)
    (st : EditorState) (o : List ℕ) (ho : st.original_image = some o) :
    (ImageEditor.apply_effects enh sample st).original_image = st.original_image ∧
    (∀ p v, (ImageEditor.update_image enh sample p v st).original_image
      = st.original_image) ∧
    (ImageEditor.reset_effects st).original_image = st.original_image ∧
    (ImageEditor.apply_effects enh sample st).image
      = some (ImageEditor.effectsPipeline enh sample st.current_settings o) ∧
    (∀ s img, ImageEditor.effectsPipeline enh sample s img
      = noiseStage sample s.noise
          (enhanceStage enh.sharpness s.sharpness
            (enhanceStage enh.color s.saturation
              (enhanceStage enh.contrast s.contrast
                (enhanceStage enh.brightness s.brightness img))))) ∧
    (∀ f v img, (v = 0 → enhanceStage f v img = img) ∧
      (v ≠ 0 → enhanceStage f v img = f (1 + v / 100) img)) ∧
    (∀ v img, (v = 0 → noiseStage sample v img = img) ∧
      (v ≠ 0 → noiseStage sample v img = ImageEditor.apply_noise v sample img)) := by
  refine ⟨?_, ?_, ?_, ?_, ?_, ?_, ?_⟩
  · simp [ImageEditor.apply_effects, ho]
  · intro p v
    simp [ImageEditor.update_image, ho, ImageEditor.apply_effects]
  · simp [ImageEditor.reset_effects, ho]
  · simp [ImageEditor.apply_effects, ho]
  · intro s img
    rfl
  · intro f v img
    constructor
    · intro h; simp [enhanceStage, h]
    · intro h; simp [enhanceStage, h]
  · intro v img
    constructor
    · intro h; simp [noiseStage, h]
    · intro h; simp [noiseStage, h]

theorem image_pipeline_nondestructive_witness :
    ((⟨some [8], some [9], ⟨1, 2, 3, 4, 5, 6⟩⟩ : EditorState).original_image = some [8]) ∧
    (ImageEditor.apply_effects ⟨fun _ l => l, fun _ l => l, fun _ l => l, fun _ l => l⟩
        (fun _ => []) ⟨some [8], some [9], ⟨1, 2, 3, 4, 5, 6⟩⟩).original_image
      = (⟨some [8], some [9], ⟨1, 2, 3, 4, 5, 6⟩⟩ : EditorState).original_image :=
  ⟨rfl,
    (image_pipeline_nondestructive ⟨fun _ l => l, fun _ l => l, fun _ l => l, fun _ l => l⟩
      (fun _ => []) ⟨some [8], some [9], ⟨1, 2, 3, 4, 5, 6⟩⟩ [8] rfl).1⟩

theorem processLoop_stop (stopTime : Option ℕ) (s : VSettings) (sample : ℚ → List ℚ)
    (total : ℤ) (k : ℕ) (steps : List FrameStep) (h : stopSet stopTime k = true) :
    VideoProcessor.processLoop stopTime s sample total k steps = ⟨[], [], k, none⟩ := by
  rw [VideoProcessor.processLoop.eq_def]
  simp [h]

theorem processLoop_nil (stopTime : Option ℕ) (s : VSettings) (sample : ℚ → List ℚ)
    (total : ℤ) (k : ℕ) (h : stopSet stopTime k = false) :
    VideoProcessor.processLoop stopTime s sample total k [] = ⟨[], [], k, none⟩ := by
  rw [VideoProcessor.processLoop.eq_def]
  simp [h]

theorem processLoop_exn_cons (stopTime : Option ℕ) (s : VSettings) (sample : ℚ → List ℚ)
    (total : ℤ) (k : ℕ) (m : String) (rest : List FrameStep)
    (h : stopSet stopTime k = false) :
    VideoProcessor.processLoop stopTime s sample total k (FrameStep.exn m :: rest)
      = ⟨[CbEvent.error m], [], k, some m⟩ := by
  rw [VideoProcessor.processLoop.eq_def]
  simp [h]

theorem processLoop_ok_cons (stopTime : Option ℕ) (s : VSettings) (sample : ℚ → List ℚ)
    (total : ℤ) (k : ℕ) (f : List ℕ) (rest : List FrameStep)
    (h : stopSet stopTime k = false) :
    VideoProcessor.processLoop stopTime s sample total k (FrameStep.ok f :: rest)
      = ⟨CbEvent.progress (progressOf (k + 1) total)
            :: (VideoProcessor.processLoop stopTime s sample total (k + 1) rest).events,
          VideoProcessor.apply_effects s sample f
            :: (VideoProcessor.processLoop stopTime s sample total (k + 1) rest).written,
          (VideoProcessor.processLoop stopTime s sample total (k + 1) rest).framesRead,
          (VideoProcessor.processLoop stopTime s sample total (k + 1) rest).aborted⟩ := by
  conv_lhs => rw [VideoProcessor.processLoop.eq_def]
  simp [h]

theorem processLoop_no_finished (stopTime : Option ℕ) (s : VSettings)
    (sample : ℚ → List ℚ) (total : ℤ) :
    ∀ (steps : List FrameStep) (k : ℕ) (path : String),
      CbEvent.finished path
        ∉ (VideoProcessor.processLoop stopTime s sample total k steps).events := by
  intro steps
  induction steps with
  | nil =>
      intro k path
      cases h : stopSet stopTime k
      · simp [processLoop_nil stopTime s sample total k h]
      · simp [processLoop_stop stopTime s sample total k [] h]
  | cons st rest ih =>
      intro k path
      cases h : stopSet stopTime k
      · cases st with
        | exn m => simp [processLoop_exn_cons stopTime s sample total k m rest h]
        | ok f =>
            simp only [processLoop_ok_cons stopTime s sample total k f rest h,
              List.mem_cons]
            rintro (h1 | h1)
            · exact CbEvent.noConfusion h1
            · exact ih (k + 1) path h1
      · simp [processLoop_stop stopTime s sample total k (st :: rest) h]

theorem processLoop_framesRead_bounds (stopTime : Option ℕ) (s : VSettings)
    (sample : ℚ → List ℚ) (total : ℤ) :
    ∀ (steps : List FrameStep) (k : ℕ),
      k ≤ (VideoProcessor.processLoop stopTime s sample total k steps).framesRead ∧
      (VideoProcessor.processLoop stopTime s sample total k steps).framesRead
        ≤ k + steps.length := by
  intro steps
  induction steps with
  | nil =>
      intro k
      cases h : stopSet stopTime k
      · simp [processLoop_nil stopTime s sample total k h]
      · simp [processLoop_stop stopTime s sample total k [] h]
  | cons st rest ih =>
      intro k
      cases h : stopSet stopTime k
      · cases st with
        | exn m =>
            simp [processLoop_exn_cons stopTime s sample total k m rest h]
        | ok f =>
            have h2 := ih (k + 1)
            simp only [processLoop_ok_cons stopTime s sample total k f rest h,
              List.length_cons]
            omega
      · simp [processLoop_stop stopTime s sample total k (st :: rest) h]

theorem processLoop_none_ok (s : VSettings) (sample : ℚ → List ℚ) (total : ℤ) :
    ∀ (frames : List (List ℕ)) (k : ℕ),
      VideoProcessor.processLoop none s sample total k (frames.map FrameStep.ok)
        = ⟨(List.range' (k + 1) frames.length).map
              (fun j => CbEvent.progress (progressOf j total)),
            frames.map (VideoProcessor.apply_effects s sample), k + frames.length,
            none⟩ := by
  intro frames
  induction frames with
  | nil =>
      intro k
      simp [processLoop_nil none s sample total k rfl]
  | cons f t ih =>
      intro k
      rw [List.map_cons, processLoop_ok_cons none s sample total k f (t.map FrameStep.ok) rfl,
        ih (k + 1)]
      simp [List.range'_succ]
      omega

theorem progressValues_nil : progressValues [] = [] := rfl

theorem progressValues_cons_progress (v : ℤ) (evs : List CbEvent) :
    progressValues (CbEvent.progress v :: evs) = v :: progressValues evs := rfl

theorem progressValues_cons_error (m : String) (evs : List CbEvent) :
    progressValues (CbEvent.error m :: evs) = progressValues evs := rfl

theorem progressValues_append_finished (evs : List CbEvent) (path : String) :
    progressValues (evs ++ [CbEvent.finished path]) = progressValues evs := by
  simp [progressValues, List.filterMap_append]

theorem processLoop_progressValues (stopTime : Option ℕ) (s : VSettings)
    (sample : ℚ → List ℚ) (total : ℤ) :
    ∀ (steps : List FrameStep) (k : ℕ),
      progressValues (VideoProcessor.processLoop stopTime s sample total k steps).events
        = (List.range' (k + 1)
              ((VideoProcessor.processLoop stopTime s sample total k steps).framesRead - k)).map
            (fun j => progressOf j total) := by
  intro steps
  induction steps with
  | nil =>
      intro k
      cases h : stopSet stopTime k
      · simp [processLoop_nil stopTime s sample total k h, progressValues_nil]
      · simp [processLoop_stop stopTime s sample total k [] h, progressValues_nil]
  | cons st rest ih =>
      intro k
      cases h : stopSet stopTime k
      · cases st with
        | exn m =>
            simp [processLoop_exn_cons stopTime s sample total k m rest h,
              progressValues_cons_error, progressValues_nil]
        | ok f =>
            have h2 := ih (k + 1)
            have hge := (processLoop_framesRead_bounds stopTime s sample total rest (k + 1)).1
            simp only [processLoop_ok_cons stopTime s sample total k f rest h,
              progressValues_cons_progress]
            have hfr :
                (VideoProcessor.processLoop stopTime s sample total (k + 1) rest).framesRead - k
                  = ((VideoProcessor.processLoop stopTime s sample total (k + 1) rest).framesRead
                      - (k + 1)) + 1 := by
              omega
            rw [hfr, List.range'_succ, List.map_cons, h2]
      · simp [processLoop_stop stopTime s sample total k (st :: rest) h, progressValues_nil]

theorem processLoop_some_ok (s : VSettings) (sample : ℚ → List ℚ) (total : ℤ) (u : ℕ) :
    ∀ (frames : List (List ℕ)) (k : ℕ), k ≤ u →
      (VideoProcessor.processLoop (some u) s sample total k
          (frames.map FrameStep.ok)).framesRead = min u (k + frames.length) ∧
      (VideoProcessor.processLoop (some u) s sample total k
          (frames.map FrameStep.ok)).aborted = none := by
  intro frames
  induction frames with
  | nil =>
      intro k hk
      by_cases h : u ≤ k
      · have hs : stopSet (some u) k = true := by simp [stopSet, h]
        refine ⟨?_, ?_⟩ <;>
          simp [processLoop_stop (some u) s sample total k _ hs]
        omega
      · have hs : stopSet (some u) k = false := by simp [stopSet, h]
        refine ⟨?_, ?_⟩ <;>
          simp [processLoop_nil (some u) s sample total k hs]
        omega
  | cons f t ih =>
      intro k hk
      by_cases h : u ≤ k
      · have hs : stopSet (some u) k = true := by simp [stopSet, h]
        refine ⟨?_, ?_⟩ <;>
          simp [processLoop_stop (some u) s sample total k _ hs]
        omega
      · have hs : stopSet (some u) k = false := by simp [stopSet, h]
        have h2 := ih (k + 1) (by omega)
        rw [List.map_cons]
        simp only [processLoop_ok_cons (some u) s sample total k f
          (t.map FrameStep.ok) hs, List.length_cons]
        refine ⟨?_, h2.2⟩
        rw [h2.1]
        omega

theorem processLoop_none_exn (s : VSettings) (sample : ℚ → List ℚ) (total : ℤ)
    (m : String) (rest : List FrameStep) :
    ∀ (frames : List (List ℕ)) (k : ℕ),
      VideoProcessor.processLoop none s sample total k
          (frames.map FrameStep.ok ++ FrameStep.exn m :: rest)
        = ⟨(List.range' (k + 1) frames.length).map
              (fun j => CbEvent.progress (progressOf j total)) ++ [CbEvent.error m],
            frames.map (VideoProcessor.apply_effects s sample),
            k + frames.length, some m⟩ := by
  intro frames
  induction frames with
  | nil =>
      intro k
      simp [processLoop_exn_cons none s sample total k m rest rfl]
  | cons f t ih =>
      intro k
      rw [List.map_cons, List.cons_append,
        processLoop_ok_cons none s sample total k f
          (t.map FrameStep.ok ++ FrameStep.exn m :: rest) rfl,
        ih (k + 1)]
      simp [List.range'_succ]
      omega

theorem progressOf_bounds (j : ℕ) (total : ℤ) (hj : (j : ℤ) ≤ total) (htotal : 0 < total) :
    0 ≤ progressOf j total ∧ progressOf j total ≤ 100 := by
  have htq : (0 : ℚ) < (total : ℚ) := by exact_mod_cast htotal
  have hq0 : (0 : ℚ) ≤ (j : ℚ) / (total : ℚ) * 100 := by positivity
  have hdiv : (j : ℚ) / (total : ℚ) ≤ 1 := by
    rw [div_le_one htq]
    exact_mod_cast hj
  have hq100 : (j : ℚ) / (total : ℚ) * 100 ≤ 100 := by nlinarith
  unfold progressOf pyInt
  rw [if_pos hq0]
  refine ⟨Int.floor_nonneg.mpr hq0, ?_⟩
  have : (⌊(j : ℚ) / (total : ℚ) * 100⌋ : ℤ) ≤ ⌊(100 : ℚ)⌋ := Int.floor_le_floor hq100
  simpa using this

theorem progressOf_mono (j j2 : ℕ) (total : ℤ) (hj : j ≤ j2) (htotal : 0 < total) :
    progressOf j total ≤ progressOf j2 total := by
  have htq : (0 : ℚ) < (total : ℚ) := by exact_mod_cast htotal
  have hjq : (j : ℚ) ≤ (j2 : ℚ) := by exact_mod_cast hj
  have h1 : (j : ℚ) / (total : ℚ) * 100 ≤ (j2 : ℚ) / (total : ℚ) * 100 := by
    have hd : (j : ℚ) / (total : ℚ) ≤ (j2 : ℚ) / (total : ℚ) :=
      (div_le_div_iff_of_pos_right htq).mpr hjq
    nlinarith
  unfold progressOf pyInt
  rw [if_pos (by positivity), if_pos (by positivity)]
  exact Int.floor_le_floor h1

theorem progress_map_bounds (total : ℤ) (m len : ℕ) (htotal : 0 < total)
    (hm : m ≤ len) (hlen : (len : ℤ) ≤ total) :
    (∀ x ∈ (List.range' 1 m).map (fun j => progressOf j total), 0 ≤ x ∧ x ≤ 100) ∧
    List.Pairwise (fun a b => a ≤ b)
      ((List.range' 1 m).map (fun j => progressOf j total)) := by
  constructor
  · intro x hx
    rcases List.mem_map.mp hx with ⟨j, hj, rfl⟩
    rcases List.mem_range'_1.mp hj with ⟨_, hj2⟩
    have hjt : (j : ℤ) ≤ total := by
      have hjl : j ≤ len := by omega
      calc (j : ℤ) ≤ (len : ℤ) := by exact_mod_cast hjl
        _ ≤ total := hlen
    exact progressOf_bounds j total hjt htotal
  · refine List.pairwise_map.mpr ?_
    exact (List.pairwise_lt_range' 1 m).imp
      (fun hab => progressOf_mono _ _ total (le_of_lt hab) htotal)

theorem run_not_opened (stopTime : Option ℕ) (s : VSettings) (sample : ℚ → List ℚ)
    (total : ℤ) (tempFile : String) (steps : List FrameStep) :
    VideoProcessor.run false stopTime s sample total tempFile steps
      = ⟨[CbEvent.error "Could not open video file"], [], 0, false⟩ := rfl

theorem run_true_eq (stopTime : Option ℕ) (s : VSettings) (sample : ℚ → List ℚ)
    (total : ℤ) (tempFile : String) (steps : List FrameStep) :
    VideoProcessor.run true stopTime s sample total tempFile steps
      = (match (VideoProcessor.processLoop stopTime s sample total 0 steps).aborted with
        | some _ =>
            ⟨(VideoProcessor.processLoop stopTime s sample total 0 steps).events,
              (VideoProcessor.processLoop stopTime s sample total 0 steps).written,
              (VideoProcessor.processLoop stopTime s sample total 0 steps).framesRead, false⟩
        | none =>
            if stopSet stopTime
                (VideoProcessor.processLoop stopTime s sample total 0 steps).framesRead then
              ⟨(VideoProcessor.processLoop stopTime s sample total 0 steps).events,
                (VideoProcessor.processLoop stopTime s sample total 0 steps).written,
                (VideoProcessor.processLoop stopTime s sample total 0 steps).framesRead, true⟩
            else
              ⟨(VideoProcessor.processLoop stopTime s sample total 0 steps).events
                  ++ [CbEvent.finished tempFile],
                (VideoProcessor.processLoop stopTime s sample total 0 steps).written,
                (VideoProcessor.processLoop stopTime s sample total 0 steps).framesRead,
                false⟩) := rfl

theorem run_events_progress (opened : Bool) (stopTime : Option ℕ) (s : VSettings)
    (sample : ℚ → List ℚ) (total : ℤ) (tempFile : String) (steps : List FrameStep) :
    progressValues (VideoProcessor.run opened stopTime s sample total tempFile steps).events
      = (List.range' 1
            (VideoProcessor.run opened stopTime s sample total tempFile steps).framesRead).map
          (fun j => progressOf j total) ∧
    (VideoProcessor.run opened stopTime s sample total tempFile steps).framesRead
      ≤ steps.length := by
  cases opened
  · rw [run_not_opened]
    exact ⟨rfl, Nat.zero_le _⟩
  · rw [run_true_eq]
    have hpv := processLoop_progressValues stopTime s sample total steps 0
    have hb := processLoop_framesRead_bounds stopTime s sample total steps 0
    rw [Nat.sub_zero] at hpv
    cases habort : (VideoProcessor.processLoop stopTime s sample total 0 steps).aborted with
    | some m =>
        simp only [habort]
        exact ⟨hpv, by omega⟩
    | none =>
        simp only [habort]
        cases hs : stopSet stopTime
            (VideoProcessor.processLoop stopTime s sample total 0 steps).framesRead
        · simp only [hs, if_false, Bool.false_eq_true, progressValues_append_finished]
          exact ⟨hpv, by omega⟩
        · simp only [hs, if_true]
          exact ⟨hpv, by omega⟩

/-- C3: the per-frame transform of the video processing loop is the
sequential composition of four pixel transforms, each linear (degree one) in
the pixel value — the float conversion, the brightness scaling, the contrast
scaling and the noise addition — followed by the clip-and-cast range
conversion; and the single worker loop applies it to each frame in order,
writing exactly the per-frame images of the input frames. -/
theorem four_affine_stage_pipeline (s : VSettings) (sample : ℚ → List ℚ)
    (total : ℤ) (tempFile : String) (frames : List (List ℕ)) (htotal : total ≠ 0) :
    (∃ g1 g2 g3 : ℚ → ℚ, ∃ g4 : ℚ → ℚ → ℚ,
      PixelAffine g1 ∧ PixelAffine g2 ∧ PixelAffine g3 ∧ (∀ n, PixelAffine (g4 n)) ∧
      ∀ frame : List ℕ,
        VideoProcessor.apply_effects s sample frame =
          List.zipWith (fun (p : ℕ) (n : ℚ) => finalizePixel (g4 n (g3 (g2 (g1 (p : ℚ))))))
            frame
            (if 0 < s.noise then sample s.noise else List.replicate frame.length 0)) ∧
    (VideoProcessor.run true none s sample total tempFile (frames.map FrameStep.ok)).written
      = frames.map (VideoProcessor.apply_effects s sample) := by
  constructor
  · refine ⟨fun x => x, fun x => x * (1 + s.brightness / 100),
      fun x => x * (1 + s.contrast / 100), fun n x => x + n,
      ⟨1, 0, fun x => by ring⟩, ⟨1 + s.brightness / 100, 0, fun x => by ring⟩,
      ⟨1 + s.contrast / 100, 0, fun x => by ring⟩, fun n => ⟨1, n, fun x => by ring⟩, ?_⟩
    intro frame
    exact video_effects_zipWith s sample frame
  · rw [run_true_eq, processLoop_none_ok s sample total frames 0]
    simp [stopSet]

theorem four_affine_stage_pipeline_witness :
    (7 : ℤ) ≠ 0 ∧
    (VideoProcessor.run true none ⟨0, 0, 0⟩ (fun _ => []) 7 "t.mp4"
        ([[1]].map FrameStep.ok)).written
      = [[1]].map (VideoProcessor.apply_effects ⟨0, 0, 0⟩ (fun _ => [])) :=
  ⟨by decide,
    (four_affine_stage_pipeline ⟨0, 0, 0⟩ (fun _ => []) 7 "t.mp4" [[1]] (by decide)).2⟩

/-- C4: once the stop event is set during processing — after u frames were
read, with u at most the number of available frames — the loop exits at the
next check without reading another frame (exactly u frames are read), the
temporary output file is removed, and the finished callback is never issued;
conversely a run whose stop event is never set and which reaches the end of
the video keeps the temporary file and ends its callbacks with the finished
callback carrying the temporary path. -/
theorem stop_flag_semantics (s : VSettings) (sample : ℚ → List ℚ) (total : ℤ)
    (tempFile : String) (frames : List (List ℕ)) (u : ℕ) (htotal : total ≠ 0)
    (hu : u ≤ frames.length) :
    ((VideoProcessor.run true (some u) s sample total tempFile
        (frames.map FrameStep.ok)).framesRead = u ∧
      (VideoProcessor.run true (some u) s sample total tempFile
        (frames.map FrameStep.ok)).tempRemoved = true ∧
      ∀ path, CbEvent.finished path
        ∉ (VideoProcessor.run true (some u) s sample total tempFile
            (frames.map FrameStep.ok)).events) ∧
    ((VideoProcessor.run true none s sample total tempFile
        (frames.map FrameStep.ok)).tempRemoved = false ∧
      ∃ evs, (VideoProcessor.run true none s sample total tempFile
          (frames.map FrameStep.ok)).events = evs ++ [CbEvent.finished tempFile]) := by
  have hL := processLoop_some_ok s sample total u frames 0 (Nat.zero_le u)
  have hfr : (VideoProcessor.processLoop (some u) s sample total 0
      (frames.map FrameStep.ok)).framesRead = u := by
    rw [hL.1]
    omega
  have hstop : stopSet (some u)
      (VideoProcessor.processLoop (some u) s sample total 0
        (frames.map FrameStep.ok)).framesRead = true := by
    rw [hfr]
    simp [stopSet]
  constructor
  · refine ⟨?_, ?_, ?_⟩
    · rw [run_true_eq]
      simp only [hL.2, hstop, if_true]
      exact hfr
    · rw [run_true_eq]
      simp only [hL.2, hstop, if_true]
    · intro path
      rw [run_true_eq]
      simp only [hL.2, hstop, if_true]
      exact processLoop_no_finished (some u) s sample total (frames.map FrameStep.ok) 0 path
  · have h0 := processLoop_none_ok s sample total frames 0
    constructor
    · rw [run_true_eq]
      simp only [h0]
      simp [stopSet]
    · refine ⟨(List.range' 1 frames.length).map
        (fun j => CbEvent.progress (progressOf j total)), ?_⟩
      rw [run_true_eq]
      simp only [h0]
      simp [stopSet]

theorem stop_flag_semantics_witness :
    ((5 : ℤ) ≠ 0 ∧ 1 ≤ [[1], [2]].length) ∧
    ((VideoProcessor.run true (some 1) ⟨0, 0, 0⟩ (fun _ => []) 5 "t.mp4"
        ([[1], [2]].map FrameStep.ok)).framesRead = 1 ∧
      (VideoProcessor.run true (some 1) ⟨0, 0, 0⟩ (fun _ => []) 5 "t.mp4"
        ([[1], [2]].map FrameStep.ok)).tempRemoved = true ∧
      ∀ path, CbEvent.finished path
        ∉ (VideoProcessor.run true (some 1) ⟨0, 0, 0⟩ (fun _ => []) 5 "t.mp4"
            ([[1], [2]].map FrameStep.ok)).events) ∧
    ((VideoProcessor.run true none ⟨0, 0, 0⟩ (fun _ => []) 5 "t.mp4"
        ([[1], [2]].map FrameStep.ok)).tempRemoved = false ∧
      ∃ evs, (VideoProcessor.run true none ⟨0, 0, 0⟩ (fun _ => []) 5 "t.mp4"
          ([[1], [2]].map FrameStep.ok)).events = evs ++ [CbEvent.finished "t.mp4"]) :=
  ⟨⟨by decide, by decide⟩,
    (stop_flag_semantics ⟨0, 0, 0⟩ (fun _ => []) 5 "t.mp4" [[1], [2]] 1
      (by decide) (by decide)).1,
    (stop_flag_semantics ⟨0, 0, 0⟩ (fun _ => []) 5 "t.mp4" [[1], [2]] 1
      (by decide) (by decide)).2⟩

/-- C5: every progress callback of a run reports
`int((frame_count / total_frames) * 100)` — the reported values are exactly
that formula at frame counts 1 up to the number of frames read — and when the
container's frame count is positive and at least the number of frames read,
every reported value lies in [0, 100] and the reported sequence is
nondecreasing. -/
theorem progress_reporting_bounded_monotone (opened : Bool) (stopTime : Option ℕ)
    (s : VSettings) (sample : ℚ → List ℚ) (total : ℤ) (tempFile : String)
    (steps : List FrameStep) (htotal : 0 < total)
    (hread : ((VideoProcessor.run opened stopTime s sample total tempFile
        steps).framesRead : ℤ) ≤ total) :
    progressValues (VideoProcessor.run opened stopTime s sample total tempFile steps).events
      = (List.range' 1
          (VideoProcessor.run opened stopTime s sample total tempFile steps).framesRead).map
          (fun j => progressOf j total) ∧
    (∀ x ∈ progressValues
        (VideoProcessor.run opened stopTime s sample total tempFile steps).events,
      0 ≤ x ∧ x ≤ 100) ∧
    List.Pairwise (fun a b => a ≤ b)
      (progressValues
        (VideoProcessor.run opened stopTime s sample total tempFile steps).events) := by
  obtain ⟨hev, _⟩ := run_events_progress opened stopTime s sample total tempFile steps
  have hb := progress_map_bounds total
    (VideoProcessor.run opened stopTime s sample total tempFile steps).framesRead
    (VideoProcessor.run opened stopTime s sample total tempFile steps).framesRead
    htotal le_rfl hread
  exact ⟨hev, by rw [hev]; exact hb.1, by rw [hev]; exact hb.2⟩

theorem progress_reporting_bounded_monotone_witness :
    ((0 : ℤ) < 2 ∧
      (((VideoProcessor.run true (some 1) ⟨0, 0, 0⟩ (fun _ => []) 2 "t.mp4"
          [FrameStep.ok [1], FrameStep.ok [2], FrameStep.ok [3]]).framesRead : ℤ) ≤ 2)) ∧
    (∀ x ∈ progressValues
        (VideoProcessor.run true (some 1) ⟨0, 0, 0⟩ (fun _ => []) 2 "t.mp4"
          [FrameStep.ok [1], FrameStep.ok [2], FrameStep.ok [3]]).events,
      0 ≤ x ∧ x ≤ 100) :=
  ⟨⟨by decide, by decide⟩,
    (progress_reporting_bounded_monotone true (some 1) ⟨0, 0, 0⟩ (fun _ => []) 2 "t.mp4"
      [FrameStep.ok [1], FrameStep.ok [2], FrameStep.ok [3]] (by decide) (by decide)).2.1⟩

/-- C6: a failed open is caught and reported as the single error callback with
the raise message, and an exception thrown while processing a frame aborts the
loop: the callbacks are the progress callbacks issued so far followed by
exactly one error callback carrying the exception message, no finished
callback ever occurs in such a run, and the editor turns the error callback
into an error dialog showing the message. -/
theorem error_callback_semantics (stopTime : Option ℕ) (s : VSettings)
    (sample : ℚ → List ℚ) (total : ℤ) (tempFile : String) (steps : List FrameStep)
    (frames : List (List ℕ)) (m : String) (rest : List FrameStep) (htotal : total ≠ 0) :
    (VideoProcessor.run false stopTime s sample total tempFile steps).events
      = [CbEvent.error "Could not open video file"] ∧
    (∃ evs,
      (VideoProcessor.run true none s sample total tempFile
          (frames.map FrameStep.ok ++ FrameStep.exn m :: rest)).events
        = evs ++ [CbEvent.error m] ∧
      (∀ e ∈ evs, ∃ q, e = CbEvent.progress q) ∧
      ∀ path, CbEvent.finished path
        ∉ (VideoProcessor.run true none s sample total tempFile
            (frames.map FrameStep.ok ++ FrameStep.exn m :: rest)).events) ∧
    VideoEditor.process_callback (CbEvent.error m)
      = [UIAction.showError ("Error processing video: " ++ m), UIAction.setProgressBar 0] := by
  refine ⟨by rw [run_not_opened], ?_, rfl⟩
  have hE := processLoop_none_exn s sample total m rest frames 0
  refine ⟨(List.range' 1 frames.length).map
      (fun j => CbEvent.progress (progressOf j total)), ?_, ?_, ?_⟩
  · rw [run_true_eq]
    simp only [hE]
  · intro e he
    rcases List.mem_map.mp he with ⟨j, _, rfl⟩
    exact ⟨_, rfl⟩
  · intro path
    rw [run_true_eq]
    simp only [hE]
    intro hmem
    rcases List.mem_append.mp hmem with hmem | hmem
    · rcases List.mem_map.mp hmem with ⟨j, _, hj⟩
      exact CbEvent.noConfusion hj
    · rcases List.mem_singleton.mp hmem with hj
      exact CbEvent.noConfusion hj

theorem error_callback_semantics_witness :
    (5 : ℤ) ≠ 0 ∧
    VideoEditor.process_callback (CbEvent.error "boom")
      = [UIAction.showError ("Error processing video: " ++ "boom"),
         UIAction.setProgressBar 0] :=
  ⟨by decide,
    (error_callback_semantics none ⟨0, 0, 0⟩ (fun _ => []) 5 "t.mp4" []
      [[1]] "boom" [] (by decide)).2.2⟩
